import Mathlib

/-!
Verification of the Sefaria schema/address engine (`sefaria/model/schema.py`).

This file gives a shallow embedding of the parts of the source exercised by
the checked claims: the `TitleGroup` title store with its lazy primary-title
cache, the `TitledTreeNode.title_dict` traversal with default-child handling,
the `NumberedTitledTreeNode` regex assembly (`address_regex` / `full_regex`),
the `AddressTalmud` / `AddressInteger` / `AddressAliyah` numeral
encode/decode, and `ArrayMapNode.get_ref_from_sections`.

Conventions:
 - Python ints are modelled as `Int` (`Nat` where the source guarantees it);
   Python `/` on ints is floor division, written `Int.fdiv`.
 - Python exceptions are modelled with `Except PyErr`; a raise that happens
   before any mutation is modelled as an `Except.error` (the caller keeps its
   previous state, matching an in-place object left unmodified).
 - Python list indexing (`a[i]`), including negative-index wraparound and
   `IndexError`, is modelled by `pyIndexList`.
 - `int(s)` is modelled by `pyIntOfChars` (strip whitespace, optional sign,
   ASCII decimal digits).
 - The two languages the engine dispatches on are the inductive `Lang`;
   title records store their language as a plain string, as in the source.
 - The Hebrew-numeral primitive (`sefaria.utils.hebrew`) is an out-of-scope
   external collaborator; no checked claim exercises the code paths that call
   it, and those branches are not modelled.
-/

namespace Sefaria

/-- The two languages the address engine dispatches on ("en" / "he"). -/
inductive Lang where
  | en
  | he
deriving DecidableEq, Repr

/-- The exception kinds raised by the modelled code:
`IndexSchemaError`, `InputError` (from `sefaria.system.exceptions`) and
Python's built-in `IndexError`. -/
inductive PyErr where
  | schemaError
  | inputError
  | indexError
deriving DecidableEq, Repr

/-! ### Python `int()` on strings

`int(s)` strips surrounding whitespace, accepts one optional sign and then a
nonempty run of decimal digits. -/

/-- Value of a nonempty all-digit character run, else `none`. -/
def natDigits (cs : List Char) : Option Nat :=
  if cs ≠ [] ∧ cs.all (·.isDigit) then
    some (cs.foldl (fun a c => 10 * a + (c.toNat - 48)) 0)
  else none

/-- Python 2 `int(s)` on a character list: strip whitespace on both ends,
optional `+`/`-` sign, decimal digits. -/
def pyIntOfChars (cs : List Char) : Option Int :=
  let t := ((cs.dropWhile (·.isWhitespace)).reverse.dropWhile (·.isWhitespace)).reverse
  match t with
  | [] => none
  | c :: rest =>
    if c = '+' then (natDigits rest).map Int.ofNat
    else if c = '-' then (natDigits rest).map (fun n => -(n : Int))
    else (natDigits (c :: rest)).map Int.ofNat

/-- Python 2 `int(s)`. -/
def pythonInt (s : String) : Option Int :=
  pyIntOfChars s.toList

/-! ### Decimal representation round-trip

`Nat.repr` is `(Nat.toDigits 10 n).asString`; we prove that `pyIntOfChars`
recovers `n` from it, which underpins the Talmud address round-trip. -/

theorem toDigitsCore_append (b : Nat) :
    ∀ (f n : Nat) (ds : List Char),
      Nat.toDigitsCore b f n ds = Nat.toDigitsCore b f n [] ++ ds := by
  intro f
  induction f with
  | zero => intro n ds; simp [Nat.toDigitsCore]
  | succ f ih =>
    intro n ds
    simp only [Nat.toDigitsCore]
    by_cases h : n / b = 0
    · simp [h]
    · simp only [h, if_false]
      rw [ih (n / b) [Nat.digitChar (n % b)], ih (n / b) (Nat.digitChar (n % b) :: ds)]
      simp

theorem digitChar_isDigit {m : Nat} (h : m < 10) :
    (Nat.digitChar m).isDigit = true := by
  interval_cases m <;> decide

theorem digitChar_val {m : Nat} (h : m < 10) :
    (Nat.digitChar m).toNat - 48 = m := by
  interval_cases m <;> decide

theorem toDigitsCore_all_digits :
    ∀ (f n : Nat), ∀ c ∈ Nat.toDigitsCore 10 f n [], c.isDigit = true := by
  intro f
  induction f with
  | zero => intro n c hc; simp [Nat.toDigitsCore] at hc
  | succ f ih =>
    intro n c hc
    simp only [Nat.toDigitsCore] at hc
    by_cases h : n / 10 = 0
    · simp only [h, if_true] at hc
      rcases List.mem_singleton.mp hc with rfl
      exact digitChar_isDigit (Nat.mod_lt _ (by omega))
    · simp only [h, if_false] at hc
      rw [toDigitsCore_append] at hc
      rcases List.mem_append.mp hc with h1 | h1
      · exact ih (n / 10) c h1
      · rcases List.mem_singleton.mp h1 with rfl
        exact digitChar_isDigit (Nat.mod_lt _ (by omega))

theorem toDigitsCore_ne_nil (f n : Nat) (hf : 0 < f) :
    Nat.toDigitsCore 10 f n [] ≠ [] := by
  cases f with
  | zero => omega
  | succ f =>
    simp only [Nat.toDigitsCore]
    by_cases h : n / 10 = 0
    · simp [h]
    · simp only [h, if_false]
      rw [toDigitsCore_append]
      simp

theorem toDigitsCore_foldl_val :
    ∀ (f n : Nat), n < 10 ^ f →
      (Nat.toDigitsCore 10 f n []).foldl (fun a c => 10 * a + (c.toNat - 48)) 0 = n := by
  intro f
  induction f with
  | zero => intro n hn; simp at hn; simp [Nat.toDigitsCore, hn]
  | succ f ih =>
    intro n hn
    simp only [Nat.toDigitsCore]
    by_cases h : n / 10 = 0
    · simp only [h, if_true, List.foldl_cons, List.foldl_nil]
      rw [digitChar_val (Nat.mod_lt _ (by omega))]
      omega
    · simp only [h, if_false]
      rw [toDigitsCore_append, List.foldl_append]
      have hlt : n / 10 < 10 ^ f := by
        rw [pow_succ] at hn
        exact Nat.div_lt_of_lt_mul (by omega)
      rw [ih (n / 10) hlt]
      simp only [List.foldl_cons, List.foldl_nil]
      rw [digitChar_val (Nat.mod_lt _ (by omega))]
      omega

theorem toDigits_all_digits (n : Nat) :
    ∀ c ∈ Nat.toDigits 10 n, c.isDigit = true := by
  intro c hc
  exact toDigitsCore_all_digits (n + 1) n c hc

theorem toDigits_ne_nil (n : Nat) : Nat.toDigits 10 n ≠ [] :=
  toDigitsCore_ne_nil (n + 1) n (by omega)

theorem toDigits_foldl_val (n : Nat) :
    (Nat.toDigits 10 n).foldl (fun a c => 10 * a + (c.toNat - 48)) 0 = n := by
  apply toDigitsCore_foldl_val
  calc n < 2 ^ n := Nat.lt_two_pow n
    _ ≤ 10 ^ n := Nat.pow_le_pow_left (by omega) n
    _ < 10 ^ (n + 1) := Nat.pow_lt_pow_succ (by omega)

theorem natDigits_toDigits (n : Nat) : natDigits (Nat.toDigits 10 n) = some n := by
  rw [natDigits, if_pos]
  · rw [toDigits_foldl_val]
  · exact ⟨toDigits_ne_nil n, List.all_eq_true.mpr (fun c hc => toDigits_all_digits n c hc)⟩

theorem digit_not_whitespace {c : Char} (h : c.isDigit = true) :
    c.isWhitespace = false := by
  simp only [Char.isDigit, Bool.and_eq_true, decide_eq_true_eq] at h
  simp only [Char.isWhitespace, Bool.or_eq_false_iff, decide_eq_false_iff_not]
  refine ⟨⟨⟨?_, ?_⟩, ?_⟩, ?_⟩ <;> · rintro rfl; revert h; decide

theorem dropWhile_eq_self_of_head {p : Char → Bool} :
    ∀ {cs : List Char}, (∀ c ∈ cs.head?, p c = false) → cs.dropWhile p = cs := by
  intro cs h
  cases cs with
  | nil => rfl
  | cons a l =>
    have := h a rfl
    simp [List.dropWhile, this]

/-- All-digit nonempty runs pass through the whitespace strip and the sign
dispatch unchanged. -/
theorem pyIntOfChars_digits {cs : List Char} (hne : cs ≠ [])
    (hd : ∀ c ∈ cs, c.isDigit = true) :
    pyIntOfChars cs = (natDigits cs).map Int.ofNat := by
  have hws : ∀ c ∈ cs, c.isWhitespace = false := fun c hc =>
    digit_not_whitespace (hd c hc)
  have h1 : cs.dropWhile (·.isWhitespace) = cs := by
    apply dropWhile_eq_self_of_head
    intro c hc
    exact hws c (List.mem_of_mem_head? hc)
  have h2 : cs.reverse.dropWhile (·.isWhitespace) = cs.reverse := by
    apply dropWhile_eq_self_of_head
    intro c hc
    exact hws c (List.mem_reverse.mp (List.mem_of_mem_head? hc))
  have hstrip :
      ((cs.dropWhile (·.isWhitespace)).reverse.dropWhile (·.isWhitespace)).reverse = cs := by
    rw [h1, h2, List.reverse_reverse]
  rcases cs with _ | ⟨a, l⟩
  · exact absurd rfl hne
  · have ha : a.isDigit = true := hd a (by simp)
    have hplus : a ≠ '+' := by rintro rfl; simp [Char.isDigit] at ha
    have hminus : a ≠ '-' := by rintro rfl; simp [Char.isDigit] at ha
    rw [pyIntOfChars]
    simp only [hstrip, if_neg hplus, if_neg hminus]

theorem pyIntOfChars_repr (n : Nat) :
    pyIntOfChars (Nat.repr n).toList = some (Int.ofNat n) := by
  have hrepr : (Nat.repr n).toList = Nat.toDigits 10 n := rfl
  rw [hrepr, pyIntOfChars_digits (toDigits_ne_nil n) (toDigits_all_digits n),
    natDigits_toDigits]
  rfl

/-! ### TitleGroup (`schema.py` lines 28-114)

A title record is the dict `{"text": ..., "lang": ..., "primary": ...,
"presentation": ...}`; the `primary` and `presentation` keys are only present
when set, which the source always reads through `dict.get`, so a `Bool`
(resp. `Option String`) field is equivalent.  The `_primary_title` lazy cache
is a dict from language to cached string; `dict.get` returns `None` for a
missing key and the code also stores `None` to invalidate, so the cache is a
function `String → Option String`. -/

structure TitleRec where
  text : String
  lang : String
  primary : Bool
  presentation : Option String
deriving DecidableEq, Repr

structure TitleGroup where
  titles : List TitleRec
  cache : String → Option String

/-- A `TitleGroup()` constructed with no serial form. -/
def TitleGroup.empty : TitleGroup := ⟨[], fun _ => none⟩

/-- `TitleGroup.primary_title(lang)`: consult the cache; on a miss scan for
the first record with this language marked primary; a falsy result (`None`
or `""`) is replaced by the soft default `""`.  Returns the string and the
group with its updated cache (the source mutates `self._primary_title`). -/
def TitleGroup.primary_title (g : TitleGroup) (lang : String) :
    String × TitleGroup :=
  let c0 := g.cache lang
  let c1 := match c0 with
    | none => (g.titles.find? (fun t => t.lang == lang && t.primary)).map TitleRec.text
    | some s => some s
  let c2 := match c1 with
    | none => some ""
    | some s => if s = "" then some "" else some s
  (c2.getD "", { g with cache := fun x => if x = lang then c2 else g.cache x })

/-- `TitleGroup.remove_title(text, lang)`. -/
def TitleGroup.remove_title (g : TitleGroup) (text lang : String) : TitleGroup :=
  { g with titles := g.titles.filter (fun t => !(t.lang == lang && t.text == text)) }

/-- The body of `add_title` after the duplicate check (lines 92-114): build
the new record `d`, raise on a duplicate primary without `replace_primary`,
demote the old primary when replacing, and append `d`. -/
def TitleGroup.addTitleCore (g : TitleGroup) (text lang : String)
    (primary replace_primary : Bool) (presentation : String) :
    Except PyErr TitleGroup :=
  let d : TitleRec := ⟨text, lang, primary,
    if presentation = "alone" ∨ presentation = "both" then some presentation else none⟩
  let has_primary := g.titles.any (fun x => x.lang == lang && x.primary)
  if has_primary && primary then
    if replace_primary then
      let r := g.primary_title lang
      let old_primary := r.1
      let g := r.2
      let g := { g with titles := g.titles.filter (fun t => !(t.lang == lang) || !t.primary) }
      let g := { g with titles := g.titles ++ [(⟨old_primary, lang, false, none⟩ : TitleRec)] }
      let g := { g with cache := fun x => if x = lang then none else g.cache x }
      .ok { g with titles := g.titles ++ [d] }
    else
      .error .schemaError
  else
    .ok { g with titles := g.titles ++ [d] }

/-- `TitleGroup.add_title(text, lang, primary, replace_primary, presentation)`
(lines 75-114).  If the `(text, lang)` pair is already present the call is a
no-op unless `replace_primary` is set, in which case the duplicate is removed
and re-added below. -/
def TitleGroup.add_title (g : TitleGroup) (text lang : String)
    (primary replace_primary : Bool) (presentation : String) :
    Except PyErr TitleGroup :=
  if g.titles.any (fun t => t.text == text && t.lang == lang) then
    if replace_primary then
      (g.remove_title text lang).addTitleCore text lang primary replace_primary presentation
    else
      .ok g
  else
    g.addTitleCore text lang primary replace_primary presentation

/-- One `add_title` call in a call sequence; a raised exception leaves the
group as it was (the source raises before any mutation on that path). -/
structure AddCall where
  text : String
  lang : String
  primary : Bool
  replace_primary : Bool
  presentation : String
deriving Repr

def applyAdd (g : TitleGroup) (c : AddCall) : TitleGroup :=
  match g.add_title c.text c.lang c.primary c.replace_primary c.presentation with
  | .ok g' => g'
  | .error _ => g

/-- Number of records marked primary for a language. -/
def cpList (lang : String) (ts : List TitleRec) : Nat :=
  (ts.filter (fun t => t.lang == lang && t.primary)).length

def countPrimary (g : TitleGroup) (lang : String) : Nat :=
  cpList lang g.titles

def atMostOnePrimary (g : TitleGroup) : Prop :=
  ∀ lang, countPrimary g lang ≤ 1

theorem cpList_append (lang : String) (ts us : List TitleRec) :
    cpList lang (ts ++ us) = cpList lang ts + cpList lang us := by
  simp [cpList, List.filter_append]

theorem demote_filter_nil (lang : String) (ts : List TitleRec) :
    (ts.filter (fun t => !(t.lang == lang) || !t.primary)).filter
      (fun t => t.lang == lang && t.primary) = [] := by
  simp only [List.filter_filter]
  apply List.filter_eq_nil_iff.mpr
  intro t _
  cases h : (t.lang == lang) <;> cases hp : t.primary <;> simp [h, hp]

theorem cpList_demote (lang : String) (ts : List TitleRec) :
    cpList lang (ts.filter (fun t => !(t.lang == lang) || !t.primary)) = 0 := by
  rw [cpList, demote_filter_nil]
  rfl

theorem cpList_filter_le (lang : String) (p : TitleRec → Bool) (ts : List TitleRec) :
    cpList lang (ts.filter p) ≤ cpList lang ts := by
  exact List.Sublist.length_le (List.Sublist.filter _ (List.filter_sublist ts))

theorem cpList_of_no_primary {lang : String} {ts : List TitleRec}
    (h : ts.any (fun x => x.lang == lang && x.primary) = false) :
    cpList lang ts = 0 := by
  simp only [cpList, List.length_eq_zero]
  apply List.filter_eq_nil_iff.mpr
  intro t ht
  exact (List.any_eq_false.mp h) t ht

theorem primary_title_titles (g : TitleGroup) (lang : String) :
    ((g.primary_title lang).2).titles = g.titles := rfl

theorem cpList_singleton_le (lang : String) (r : TitleRec) :
    cpList lang [r] ≤ 1 := by
  simp only [cpList, List.filter]
  cases (r.lang == lang && r.primary) <;> simp

theorem cpList_singleton_lang_ne {lang : String} {r : TitleRec}
    (h : (r.lang == lang) = false) : cpList lang [r] = 0 := by
  simp [cpList, List.filter, h]

theorem cpList_singleton_not_primary {lang : String} {r : TitleRec}
    (h : r.primary = false) : cpList lang [r] = 0 := by
  simp [cpList, List.filter, h]

/-- `addTitleCore` preserves the at-most-one-primary invariant. -/
theorem addTitleCore_preserves {g : TitleGroup} (text lang : String)
    (primary replace_primary : Bool) (presentation : String)
    (h : atMostOnePrimary g) {g' : TitleGroup}
    (hok : g.addTitleCore text lang primary replace_primary presentation = .ok g') :
    atMostOnePrimary g' := by
  intro l
  rw [TitleGroup.addTitleCore] at hok
  by_cases hp : (g.titles.any (fun x => x.lang == lang && x.primary) && primary) = true
  · rw [if_pos hp] at hok
    cases hr : replace_primary with
    | false => rw [hr] at hok; exact absurd hok (by simp)
    | true =>
      rw [hr, if_pos rfl] at hok
      injection hok with hok
      subst hok
      simp only [countPrimary, primary_title_titles, cpList_append]
      by_cases hl : l = lang
      · subst hl
        rw [cpList_demote]
        have h1 : cpList l [(⟨(g.primary_title l).1, l, false, none⟩ : TitleRec)] = 0 :=
          cpList_singleton_not_primary rfl
        have h2 := cpList_singleton_le l (⟨text, l, primary,
          if presentation = "alone" ∨ presentation = "both" then some presentation
          else none⟩ : TitleRec)
        omega
      · have hne : (lang == l) = false := by
          simp only [beq_eq_false_iff_ne, ne_eq]
          exact fun hx => hl hx.symm
        have hA := cpList_filter_le l (fun t => !(t.lang == lang) || !t.primary) g.titles
        have h1 : cpList l [(⟨(g.primary_title lang).1, lang, false, none⟩ : TitleRec)] = 0 :=
          cpList_singleton_lang_ne hne
        have h2 : cpList l [(⟨text, lang, primary,
            if presentation = "alone" ∨ presentation = "both" then some presentation
            else none⟩ : TitleRec)] = 0 :=
          cpList_singleton_lang_ne hne
        have := h l
        simp only [countPrimary] at this
        omega
  · rw [if_neg hp] at hok
    injection hok with hok
    subst hok
    simp only [countPrimary, cpList_append]
    by_cases hl : l = lang
    · subst hl
      cases hpr : primary with
      | false =>
        have h2 : cpList l [(⟨text, l, false,
            if presentation = "alone" ∨ presentation = "both" then some presentation
            else none⟩ : TitleRec)] = 0 :=
          cpList_singleton_not_primary rfl
        have := h l
        simp only [countPrimary] at this
        omega
      | true =>
        have hany : g.titles.any (fun x => x.lang == l && x.primary) = false := by
          cases hany2 : g.titles.any (fun x => x.lang == l && x.primary) with
          | false => rfl
          | true => exact absurd (by simp [hany2, hpr]) hp
        have h0 : cpList l g.titles = 0 := cpList_of_no_primary hany
        have h2 := cpList_singleton_le l (⟨text, l, true,
          if presentation = "alone" ∨ presentation = "both" then some presentation
          else none⟩ : TitleRec)
        omega
    · have hne : (lang == l) = false := by
        simp only [beq_eq_false_iff_ne, ne_eq]
        exact fun hx => hl hx.symm
      have h2 : cpList l [(⟨text, lang, primary,
          if presentation = "alone" ∨ presentation = "both" then some presentation
          else none⟩ : TitleRec)] = 0 :=
        cpList_singleton_lang_ne hne
      have := h l
      simp only [countPrimary] at this
      omega

/-- A single `add_title` call (exception or not) preserves the invariant. -/
theorem applyAdd_preserves {g : TitleGroup} (c : AddCall)
    (h : atMostOnePrimary g) : atMostOnePrimary (applyAdd g c) := by
  rw [applyAdd]
  rcases hcall : g.add_title c.text c.lang c.primary c.replace_primary c.presentation with g' | e
  case error => exact h
  case ok =>
    rw [TitleGroup.add_title] at hcall
    by_cases hdup : g.titles.any (fun t => t.text == c.text && t.lang == c.lang) = true
    · rw [if_pos hdup] at hcall
      cases hr : c.replace_primary with
      | false => rw [hr] at hcall; simp at hcall; subst hcall; exact h
      | true =>
        rw [hr, if_pos rfl] at hcall
        refine addTitleCore_preserves _ _ _ _ _ ?_ hcall
        intro l
        simp only [countPrimary, TitleGroup.remove_title]
        exact le_trans (cpList_filter_le l _ g.titles) (h l)
    · rw [if_neg hdup] at hcall
      exact addTitleCore_preserves _ _ _ _ _ h hcall

theorem foldl_applyAdd_preserves (calls : List AddCall) :
    ∀ g : TitleGroup, atMostOnePrimary g →
      atMostOnePrimary (calls.foldl applyAdd g) := by
  induction calls with
  | nil => intro g h; exact h
  | cons c rest ih =>
    intro g h
    exact ih (applyAdd g c) (applyAdd_preserves c h)

/-! ### TitledTreeNode.title_dict (`schema.py` lines 438-468)

A titled tree node carries its `TitleGroup` record list, its `default` flag
and its children.  `title_dict` is modelled together with `childrenPass`,
the body of its `for child in self.children` loop: a default child replaces
`thisnode` (the value every key of this node maps to) and is *not* recursed
into; a non-default child's recursive map is merged in.  The resulting
Python dict is modelled as a function `String → Option TNode`. -/

inductive TNode where
  | node (titles : List TitleRec) (dflt : Bool) (children : List TNode)

def TNode.titles : TNode → List TitleRec
  | .node ts _ _ => ts

def TNode.is_default : TNode → Bool
  | .node _ d _ => d

def TNode.children : TNode → List TNode
  | .node _ _ cs => cs

def TitleMap := String → Option TNode

def emptyTitleMap : TitleMap := fun _ => none

def mapInsert (m : TitleMap) (k : String) (v : TNode) : TitleMap :=
  fun x => if x = k then some v else m x

/-- `dict.update(incoming)`: keys of `incoming` win. -/
def mapUpdate (m incoming : TitleMap) : TitleMap :=
  fun x => match incoming x with
    | some v => some v
    | none => m x

def title_separators : List String := [" ", ", "]

/-- The `node_title_list` computed at the top of `title_dict`: combined
titles (every `(base, separator)` prefix pair when `baselist` is nonempty),
plus the standalone titles.  The second comprehension's condition parses as
`(lang-match and presentation == "alone") or presentation == "both"`, as in
the source. -/
def nodeTitleList (titles : List TitleRec) (lang : String)
    (baselist : List String) : List String :=
  let this_node_titles :=
    (titles.filter (fun t => t.lang == lang && !(t.presentation == some "alone"))).map
      TitleRec.text
  let combined :=
    if baselist.isEmpty then this_node_titles
    else baselist.bind (fun b => title_separators.bind
      (fun sep => this_node_titles.map (fun t => b ++ sep ++ t)))
  let alone :=
    (titles.filter (fun t =>
      (t.lang == lang && t.presentation == some "alone")
        || t.presentation == some "both")).map TitleRec.text
  combined ++ alone

mutual

/-- `TitledTreeNode.title_dict(lang, baselist)`. -/
def title_dict (n : TNode) (lang : String) (baselist : List String) : TitleMap :=
  match n with
  | .node titles dflt children =>
    let ntl := nodeTitleList titles lang baselist
    let acc := childrenPass lang ntl children emptyTitleMap (.node titles dflt children)
    ntl.foldl (fun d t => mapInsert d t acc.2) acc.1

/-- The `for child in self.children` loop of `title_dict`, threading the
accumulated dict and `thisnode`. -/
def childrenPass (lang : String) (ntl : List String) :
    List TNode → TitleMap → TNode → TitleMap × TNode
  | [], d, tn => (d, tn)
  | c :: rest, d, tn =>
    if c.is_default then childrenPass lang ntl rest d c
    else childrenPass lang ntl rest (mapUpdate d (title_dict c lang ntl)) tn

end

theorem childrenPass_snd (lang : String) (ntl : List String) :
    ∀ (cs : List TNode) (d : TitleMap) (tn : TNode),
      (childrenPass lang ntl cs d tn).2 =
        ((cs.filter TNode.is_default).getLast?).getD tn := by
  intro cs
  induction cs with
  | nil => intro d tn; simp [childrenPass]
  | cons c rest ih =>
    intro d tn
    rw [childrenPass]
    by_cases hc : c.is_default
    · rw [if_pos hc, ih]
      simp only [List.filter_cons, hc, if_pos]
      rw [List.getLast?_cons]
      rfl
    · rw [if_neg hc, ih]
      have hc' : TNode.is_default c = false := by
        cases h : TNode.is_default c
        · rfl
        · exact absurd h hc
      simp [List.filter_cons, hc']

theorem foldl_mapInsert (v : TNode) :
    ∀ (keys : List String) (m : TitleMap) (x : String),
      (keys.foldl (fun d t => mapInsert d t v) m) x =
        if x ∈ keys then some v else m x := by
  intro keys
  induction keys with
  | nil => intro m x; simp
  | cons k rest ih =>
    intro m x
    simp only [List.foldl_cons, ih, mapInsert]
    by_cases hx : x ∈ rest
    · simp [hx]
    · by_cases hk : x = k <;> simp [hx, hk]

/-! #### Claim C2 -/

/-- A node `P` (one English title "P") whose only child `D` is a default
node; `D` itself has a titled child `G`. -/
def nodeG : TNode := .node [⟨"G", "en", true, none⟩] false []

def nodeD : TNode := .node [] true [nodeG]

def nodeP : TNode := .node [⟨"P", "en", true, none⟩] false [nodeD]

/-- C2 counterexample: in `title_dict` the parent's title key "P" maps to
the *default child* `D`, not to the current node `P` as the claim states;
and the default child's subtree is not traversed at all (no key involving
`G` appears), contradicting "traversal recurses into that default child". -/
theorem C2_counterexample :
    title_dict nodeP "en" [] "P" = some nodeD
    ∧ title_dict nodeP "en" [] "G" = none
    ∧ title_dict nodeP "en" [] "P G" = none
    ∧ title_dict nodeP "en" [] "P, G" = none
    ∧ nodeD ≠ nodeP := by
  refine ⟨?_, ?_, ?_, ?_, ?_⟩
  · simp [nodeP, nodeD, nodeG, title_dict, childrenPass, nodeTitleList, title_separators,
      emptyTitleMap, mapInsert, mapUpdate, TNode.is_default]
  · simp [nodeP, nodeD, nodeG, title_dict, childrenPass, nodeTitleList, title_separators,
      emptyTitleMap, mapInsert, mapUpdate, TNode.is_default]
  · simp [nodeP, nodeD, nodeG, title_dict, childrenPass, nodeTitleList, title_separators,
      emptyTitleMap, mapInsert, mapUpdate, TNode.is_default]
  · simp [nodeP, nodeD, nodeG, title_dict, childrenPass, nodeTitleList, title_separators,
      emptyTitleMap, mapInsert, mapUpdate, TNode.is_default]
  · intro h
    rw [nodeD, nodeP] at h
    injection h with h1 h2 h3
    simp at h1

/-- C2 (amended): in `TitledTreeNode.title_dict`, for every node with a
child marked `is_default`, traversal does **not** recurse into the default
child; every combined title key computed from the current node's titles maps
to the default child (the last one, if several) — not to the current node —
and the default child contributes no additional title segment of its own. -/
theorem C2_default_child_title_dict (titles : List TitleRec) (dflt : Bool)
    (children : List TNode) (lang : String) (baselist : List String)
    (dNode : TNode)
    (hd : (children.filter TNode.is_default).getLast? = some dNode)
    (t : String) (ht : t ∈ nodeTitleList titles lang baselist) :
    title_dict (.node titles dflt children) lang baselist t = some dNode := by
  rw [title_dict]
  simp only [foldl_mapInsert, childrenPass_snd, hd, Option.getD_some, if_pos ht]

/-- Witness for `C2_default_child_title_dict` at the concrete tree above. -/
theorem C2_default_child_title_dict_witness :
    title_dict (.node [⟨"P", "en", true, none⟩] false [nodeD]) "en" [] "P" = some nodeD :=
  C2_default_child_title_dict [⟨"P", "en", true, none⟩] false [nodeD] "en" [] nodeD
    (by simp [nodeD, TNode.is_default])
    "P" (by simp [nodeTitleList, title_separators])

/-! #### Claims C5, C6, C7 -/

def exceptOk {α : Type} : Except PyErr α → Bool
  | .ok _ => true
  | .error _ => false

/-- A group holding a single primary English title "Foo", fresh cache. -/
def gPrim : TitleGroup := ⟨[⟨"Foo", "en", true, none⟩], fun _ => none⟩

/-- State after `primary_title("en")` was called once on an empty group:
the cache now holds the soft default `""` for "en". -/
def gEx1 : TitleGroup := (TitleGroup.empty.primary_title "en").2

/-- `gEx1` after a successful `add_title("Foo", "en", primary=True)`. -/
def gEx2 : TitleGroup := applyAdd gEx1 ⟨"Foo", "en", true, false, "combined"⟩

/-- `gEx2` after `add_title("Bar", "en", primary=True, replace_primary=True)`. -/
def gEx3 : TitleGroup := applyAdd gEx2 ⟨"Bar", "en", true, true, "combined"⟩

/-- C5 counterexample.  First: a group already holding the primary "Foo" for
"en" accepts `add_title("Foo", "en", primary=True, replace_primary=False)`
as a silent no-op — the duplicate check precedes the duplicate-primary
check — instead of failing with a SchemaError as the claim states.  Second:
when the lazy primary cache holds the stale soft default `""` (the reachable
state `gEx2`), replacing the primary demotes the cached `""` instead of the
stored primary "Foo", so the old primary is deleted rather than kept as a
plain record. -/
theorem C5_counterexample :
    gPrim.add_title "Foo" "en" true false "combined" = .ok gPrim
    ∧ gEx3.titles = [⟨"", "en", false, none⟩, ⟨"Bar", "en", true, none⟩]
    ∧ gEx3.titles.all (fun r => !(r.text == "Foo")) = true := by
  refine ⟨rfl, rfl, rfl⟩

theorem primary_title_of_cache_none {g : TitleGroup} {lang oldp : String}
    (hcache : g.cache lang = none)
    (hprim : (g.titles.find? (fun t => t.lang == lang && t.primary)).map
      TitleRec.text = some oldp) :
    (g.primary_title lang).1 = oldp := by
  rw [TitleGroup.primary_title]
  simp only [hcache, hprim]
  by_cases h : oldp = "" <;> simp [h]

/-- C5 (amended): for every TitleGroup already holding a primary title for
language `lang`, if the `(text, lang)` pair being added is *not* already
present, then `add_title` with `primary=true, replace_primary=false` fails
with a SchemaError (when the pair is present the call is instead a silent
no-op), and — provided the cached primary for `lang` is unset — the call
with `primary=true, replace_primary=true` demotes the old primary to a
plain non-primary record that remains in the title list, while the new
record becomes the only primary for `lang`. -/
theorem C5_duplicate_primary_behavior (g : TitleGroup)
    (text lang presentation oldp : String)
    (hprim : (g.titles.find? (fun t => t.lang == lang && t.primary)).map
      TitleRec.text = some oldp)
    (hfresh : g.titles.any (fun t => t.text == text && t.lang == lang) = false)
    (hcache : g.cache lang = none) :
    g.add_title text lang true false presentation = .error .schemaError
    ∧ exceptOk (g.add_title text lang true true presentation) = true
    ∧ (⟨oldp, lang, false, none⟩ : TitleRec)
        ∈ (applyAdd g ⟨text, lang, true, true, presentation⟩).titles
    ∧ (applyAdd g ⟨text, lang, true, true, presentation⟩).titles.filter
        (fun t => t.lang == lang && t.primary)
      = [⟨text, lang, true,
          if presentation = "alone" ∨ presentation = "both" then some presentation
          else none⟩] := by
  have hany : g.titles.any (fun x => x.lang == lang && x.primary) = true := by
    rcases Option.map_eq_some'.mp hprim with ⟨r, hr, hrt⟩
    apply List.any_eq_true.mpr
    have hpred := @List.find?_some TitleRec (fun t => t.lang == lang && t.primary) r g.titles hr
    exact ⟨r, List.mem_of_find?_eq_some hr, hpred⟩
  have hold : (g.primary_title lang).1 = oldp := primary_title_of_cache_none hcache hprim
  have hcore :
      g.addTitleCore text lang true true presentation =
        .ok ⟨((((g.primary_title lang).2).titles.filter
                (fun t => !(t.lang == lang) || !t.primary))
              ++ [(⟨(g.primary_title lang).1, lang, false, none⟩ : TitleRec)])
              ++ [(⟨text, lang, true,
                    if presentation = "alone" ∨ presentation = "both" then some presentation
                    else none⟩ : TitleRec)],
             fun x => if x = lang then none
               else ((g.primary_title lang).2).cache x⟩ := by
    rw [TitleGroup.addTitleCore]
    simp only [hany, Bool.true_and, Bool.and_self, if_pos rfl, if_true]
  constructor
  · rw [TitleGroup.add_title, if_neg (by simp [hfresh]), TitleGroup.addTitleCore]
    simp only [hany, Bool.true_and, Bool.and_self, if_true]
    rfl
  · have hfull : g.add_title text lang true true presentation =
        g.addTitleCore text lang true true presentation := by
      rw [TitleGroup.add_title, if_neg (by simp [hfresh])]
    refine ⟨?_, ?_, ?_⟩
    · rw [hfull, hcore]; rfl
    · simp only [applyAdd, hfull, hcore]
      rw [hold]
      simp [primary_title_titles]
    · simp only [applyAdd, hfull, hcore]
      simp only [List.filter_append, primary_title_titles, demote_filter_nil]
      simp

/-- Witness for `C5_duplicate_primary_behavior` at the concrete group
`gPrim`. -/
theorem C5_duplicate_primary_behavior_witness :
    gPrim.add_title "Bar" "en" true false "combined" = .error .schemaError
    ∧ exceptOk (gPrim.add_title "Bar" "en" true true "combined") = true
    ∧ (⟨"Foo", "en", false, none⟩ : TitleRec)
        ∈ (applyAdd gPrim ⟨"Bar", "en", true, true, "combined"⟩).titles
    ∧ (applyAdd gPrim ⟨"Bar", "en", true, true, "combined"⟩).titles.filter
        (fun t => t.lang == "en" && t.primary)
      = [⟨"Bar", "en", true,
          if "combined" = "alone" ∨ "combined" = "both" then some "combined"
          else none⟩] :=
  C5_duplicate_primary_behavior gPrim "Bar" "en" "combined" "Foo"
    (by decide) (by decide) rfl

/-- C6: starting from an empty TitleGroup, after any sequence of `add_title`
calls at most one title record per language is marked primary; and adding a
`(text, lang)` pair already present without `replace_primary` is a no-op
that leaves the group unchanged. -/
theorem C6_single_primary_invariant :
    (∀ (calls : List AddCall) (lang : String),
        countPrimary (calls.foldl applyAdd TitleGroup.empty) lang ≤ 1)
    ∧ ∀ (g : TitleGroup) (text lang : String) (primary : Bool) (presentation : String),
        g.titles.any (fun t => t.text == text && t.lang == lang) = true →
        g.add_title text lang primary false presentation = .ok g := by
  constructor
  · intro calls lang
    exact foldl_applyAdd_preserves calls TitleGroup.empty
      (fun l => by simp [countPrimary, cpList, TitleGroup.empty]) lang
  · intro g text lang primary presentation hdup
    rw [TitleGroup.add_title, if_pos hdup]
    rfl

/-- Witness for `C6_single_primary_invariant`: a concrete call sequence that
replaces a primary, and a concrete duplicate no-op. -/
theorem C6_single_primary_invariant_witness :
    countPrimary
      ([⟨"A", "en", true, false, "combined"⟩,
        ⟨"B", "en", true, true, "combined"⟩].foldl applyAdd TitleGroup.empty) "en" ≤ 1
    ∧ gPrim.add_title "Foo" "en" false false "combined" = .ok gPrim :=
  ⟨C6_single_primary_invariant.1 _ "en",
   C6_single_primary_invariant.2 gPrim "Foo" "en" false "combined" (by decide)⟩

/-- C7 (code-bug evidence): `primary_title("en")` on an empty group caches
the soft default `""`; a subsequent successful
`add_title("Foo", "en", primary=True)` does *not* invalidate that cache
(the source only invalidates on the `replace_primary` path), so the next
`primary_title("en")` still returns the stale `""` instead of "Foo". -/
theorem C7_add_title_stale_cache :
    (TitleGroup.empty.primary_title "en").1 = ""
    ∧ exceptOk (gEx1.add_title "Foo" "en" true false "combined") = true
    ∧ gEx2.titles = [⟨"Foo", "en", true, none⟩]
    ∧ gEx2.cache "en" = some ""
    ∧ (gEx2.primary_title "en").1 = "" := by
  refine ⟨rfl, rfl, rfl, rfl, rfl⟩

/-! ### AddressTalmud numeral encode/decode (`schema.py` lines 1130-1183)

Only the English branches are modelled: the Hebrew branches go through the
out-of-scope `sefaria.utils.hebrew` numeral primitive and no checked claim
exercises them.  `self.length` (the optional declared maximum, set at
construction, line 1017-1019) is an `Option Int`; the Python guard
`if self.length and daf > self.length` treats both `None` and `0` as
falsy. -/

/-- The truthiness test `self.length and daf > self.length`. -/
def lengthExceeded (length : Option Int) (daf : Int) : Bool :=
  match length with
  | some L => decide (L ≠ 0) && decide (daf > L)
  | none => false

/-- `AddressTalmud.toNumber(lang="en", s)`: a trailing `a`/`b` selects the
amud (default `a`), the preceding text is parsed by `int()`; a `ValueError`
is re-raised as `InputError`, as is a daf beyond the declared maximum.
`s[-1]` on an empty string raises a bare `IndexError`. -/
def AddressTalmud.toNumber_en (length : Option Int) (s : String) :
    Except PyErr Int :=
  match s.toList.getLast? with
  | none => .error .indexError
  | some c =>
    let p := if c = 'a' ∨ c = 'b' then (c, s.toList.dropLast) else ('a', s.toList)
    match pyIntOfChars p.2 with
    | none => .error .inputError
    | some daf =>
      if lengthExceeded length daf then .error .inputError
      else .ok (if p.1 = 'a' then daf * 2 - 1 else daf * 2)

/-- `AddressTalmud.toStr("en", i)`: `i += 1; daf = i / 2` (Python floor
division), suffix `b` when `i > daf * 2` else `a`. -/
def AddressTalmud.toStr_en (i : Int) : String :=
  if i + 1 > ((i + 1).fdiv 2) * 2 then toString ((i + 1).fdiv 2) ++ "b"
  else toString ((i + 1).fdiv 2) ++ "a"

theorem toString_int_ofNat (m : Nat) : toString (Int.ofNat m) = Nat.repr m := rfl

theorem repr_toList_ne_nil (m : Nat) : (Nat.repr m).toList ≠ [] := by
  show Nat.toDigits 10 m ≠ []
  exact toDigits_ne_nil m

theorem repr_toList_digits (m : Nat) :
    ∀ c ∈ (Nat.repr m).toList, c.isDigit = true := by
  show ∀ c ∈ Nat.toDigits 10 m, c.isDigit = true
  exact toDigits_all_digits m

/-- Parsing the rendered daf: `int(str(d)) = d` for a nonnegative `Int`. -/
theorem pyIntOfChars_toString_int {d : Int} (hd : 0 ≤ d) :
    pyIntOfChars (toString d).toList = some d := by
  obtain ⟨m, rfl⟩ := Int.eq_ofNat_of_zero_le hd
  exact pyIntOfChars_repr m

theorem toString_int_toList_ne_nil {d : Int} (hd : 0 ≤ d) :
    (toString d).toList ≠ [] := by
  obtain ⟨m, rfl⟩ := Int.eq_ofNat_of_zero_le hd
  exact repr_toList_ne_nil m

theorem toString_int_toList_digits {d : Int} (hd : 0 ≤ d) :
    ∀ c ∈ (toString d).toList, c.isDigit = true := by
  obtain ⟨m, rfl⟩ := Int.eq_ofNat_of_zero_le hd
  exact repr_toList_digits m

theorem toList_append_char (s : String) (c : Char) :
    (s ++ String.singleton c).toList = s.toList ++ [c] := by
  simp [String.toList, String.data_append, String.singleton]

theorem digit_ne_ab {c : Char} (h : c.isDigit = true) : ¬(c = 'a' ∨ c = 'b') := by
  rintro (rfl | rfl) <;> simp [Char.isDigit] at h

/-- `toNumber_en` on an all-digit string: the amud defaults to `a` and the
whole string is the daf. -/
theorem toNumber_en_digit_string (length : Option Int) (s : String)
    (hne : s.toList ≠ []) (hdig : ∀ c ∈ s.toList, c.isDigit = true)
    (v : Int) (hv : pyIntOfChars s.toList = some v) :
    AddressTalmud.toNumber_en length s =
      if lengthExceeded length v then .error .inputError else .ok (v * 2 - 1) := by
  rw [AddressTalmud.toNumber_en]
  cases hlast : s.toList.getLast? with
  | none => exact absurd (List.getLast?_eq_none_iff.mp hlast) hne
  | some c =>
    have hcd : c.isDigit = true := hdig c (List.mem_of_getLast?_eq_some hlast)
    simp only [if_neg (digit_ne_ab hcd), hv]
    simp

/-- `toNumber_en` on `str(daf) ++ suffix`: the suffix selects the amud and
the digits are the daf. -/
theorem toNumber_en_parse (length : Option Int) (daf : Int) (hd : 1 ≤ daf)
    (hb : lengthExceeded length daf = false) :
    AddressTalmud.toNumber_en length (toString daf ++ "a") = .ok (daf * 2 - 1)
    ∧ AddressTalmud.toNumber_en length (toString daf ++ "b") = .ok (daf * 2)
    ∧ AddressTalmud.toNumber_en length (toString daf) = .ok (daf * 2 - 1) := by
  have h0 : (0 : Int) ≤ daf := by omega
  have hlist : ∀ c : Char, (toString daf ++ String.singleton c).toList
      = (toString daf).toList ++ [c] := fun c => toList_append_char _ c
  have hstr : ∀ c : Char, (toString daf ++ String.singleton c).toList.getLast? = some c := by
    intro c
    rw [hlist c, List.getLast?_concat]
  have hdrop : ∀ c : Char, (toString daf ++ String.singleton c).toList.dropLast
      = (toString daf).toList := by
    intro c
    rw [hlist c, List.dropLast_concat]
  have hai : ("a" : String) = String.singleton 'a' := rfl
  have hbi : ("b" : String) = String.singleton 'b' := rfl
  have hparse := pyIntOfChars_toString_int h0
  have hparse2 : pyIntOfChars (toString daf).data = some daf := hparse
  refine ⟨?_, ?_, ?_⟩
  · rw [AddressTalmud.toNumber_en, hai, hstr 'a', hdrop 'a']
    simp [hparse2, hb]
  · rw [AddressTalmud.toNumber_en, hbi, hstr 'b', hdrop 'b']
    simp [hparse2, hb]
  · rw [toNumber_en_digit_string length (toString daf) (toString_int_toList_ne_nil h0)
      (toString_int_toList_digits h0) daf hparse, if_neg (by rw [hb]; exact Bool.false_ne_true)]

/-- C1: the English Talmud address round-trip.  For every daf `d ∈ [1, max]`
the encode of index `2d-1` ("a" side) and `2d` ("b" side) decodes back to
the same index; concretely `toNumber("en","2a") = 3`, `toNumber("en","2b") =
4`, `toStr("en",3) = "2a"`, `toStr("en",4) = "2b"`; and the rendering rule
is `daf = ceil(i/2)` with suffix `a` for odd and `b` for even `i`. -/
theorem C1_talmud_round_trip :
    (∀ (max d : Int), 1 ≤ d → d ≤ max →
      AddressTalmud.toNumber_en (some max) (AddressTalmud.toStr_en (2 * d - 1))
          = .ok (2 * d - 1)
      ∧ AddressTalmud.toNumber_en (some max) (AddressTalmud.toStr_en (2 * d))
          = .ok (2 * d))
    ∧ AddressTalmud.toNumber_en none "2a" = .ok 3
    ∧ AddressTalmud.toNumber_en none "2b" = .ok 4
    ∧ AddressTalmud.toStr_en 3 = "2a"
    ∧ AddressTalmud.toStr_en 4 = "2b"
    ∧ (∀ i : Int, 1 ≤ i →
        AddressTalmud.toStr_en i
          = toString ((i + 1).fdiv 2) ++ (if i % 2 = 1 then "a" else "b")) := by
  have hfd2 : ∀ d : Int, (2 * d).fdiv 2 = d := by
    intro d
    rw [Int.fdiv_eq_ediv _ (by omega)]
    omega
  have hfd2' : ∀ d : Int, (2 * d + 1).fdiv 2 = d := by
    intro d
    rw [Int.fdiv_eq_ediv _ (by omega)]
    omega
  have hnb : ∀ max d : Int, d ≤ max → lengthExceeded (some max) d = false := by
    intro max d hle
    simp only [lengthExceeded]
    have : decide (d > max) = false := by simp; omega
    rw [this, Bool.and_false]
  refine ⟨?_, rfl, rfl, rfl, rfl, ?_⟩
  · intro max d hd hmax
    constructor
    · have hstr : AddressTalmud.toStr_en (2 * d - 1) = toString d ++ "a" := by
        rw [AddressTalmud.toStr_en]
        have h1 : 2 * d - 1 + 1 = 2 * d := by ring
        rw [h1, hfd2]
        rw [if_neg (by omega)]
      rw [hstr, (toNumber_en_parse (some max) d hd (hnb max d hmax)).1]
      congr 1
      ring
    · have hstr : AddressTalmud.toStr_en (2 * d) = toString d ++ "b" := by
        rw [AddressTalmud.toStr_en]
        rw [hfd2' d]
        rw [if_pos (by omega)]
      rw [hstr, (toNumber_en_parse (some max) d hd (hnb max d hmax)).2.1]
      congr 1
      ring
  · intro i hi
    rw [AddressTalmud.toStr_en]
    rcases Int.even_or_odd i with ⟨k, hk⟩ | ⟨k, hk⟩
    · have h1 : i + 1 = 2 * k + 1 := by omega
      have h2 : ¬(i % 2 = 1) := by omega
      rw [h1, hfd2' k, if_pos (by omega), if_neg h2]
    · have h1 : i + 1 = 2 * (k + 1) := by omega
      have h2 : i % 2 = 1 := by omega
      rw [h1, hfd2 (k + 1), if_neg (by omega), if_pos h2]

/-- Witness for `C1_talmud_round_trip` at `max = 10`, `d = 2`, `i = 5`. -/
theorem C1_talmud_round_trip_witness :
    (AddressTalmud.toNumber_en (some 10) (AddressTalmud.toStr_en (2 * 2 - 1))
        = .ok (2 * 2 - 1)
      ∧ AddressTalmud.toNumber_en (some 10) (AddressTalmud.toStr_en (2 * 2))
        = .ok (2 * 2))
    ∧ AddressTalmud.toStr_en 5
        = toString (((5 : Int) + 1).fdiv 2) ++ (if (5 : Int) % 2 = 1 then "a" else "b") :=
  ⟨C1_talmud_round_trip.1 10 2 (by omega) (by omega),
   C1_talmud_round_trip.2.2.2.2.2 5 (by omega)⟩

/-- C8: English Talmud parsing.  A trailing `a`/`b` suffix selects the amud
(defaulting to `a` when absent) with the preceding digits as the daf; a daf
beyond the declared maximum fails with `InputError`; text whose daf portion
`int()` cannot parse also fails with `InputError`. -/
theorem C8_talmud_en_errors :
    (∀ (length : Option Int) (daf : Int), 1 ≤ daf → lengthExceeded length daf = false →
      AddressTalmud.toNumber_en length (toString daf ++ "a") = .ok (daf * 2 - 1)
      ∧ AddressTalmud.toNumber_en length (toString daf ++ "b") = .ok (daf * 2)
      ∧ AddressTalmud.toNumber_en length (toString daf) = .ok (daf * 2 - 1))
    ∧ (∀ (max daf : Int), 1 ≤ max → max < daf →
        AddressTalmud.toNumber_en (some max) (toString daf) = .error .inputError
        ∧ AddressTalmud.toNumber_en (some max) (toString daf ++ "b")
          = .error .inputError)
    ∧ (∀ (length : Option Int) (s : String) (c : Char),
        s.toList.getLast? = some c →
        pyIntOfChars (if c = 'a' ∨ c = 'b' then s.toList.dropLast else s.toList) = none →
        AddressTalmud.toNumber_en length s = .error .inputError) := by
  refine ⟨toNumber_en_parse, ?_, ?_⟩
  · intro max daf hmax hgt
    have hd1 : 1 ≤ daf := by omega
    have hex : lengthExceeded (some max) daf = true := by
      simp only [lengthExceeded]
      have h1 : decide (max ≠ 0) = true := by simp; omega
      have h2 : decide (daf > max) = true := by simp; omega
      rw [h1, h2]
      rfl
    have h0 : (0 : Int) ≤ daf := by omega
    have hparse := pyIntOfChars_toString_int h0
    constructor
    · rw [toNumber_en_digit_string (some max) (toString daf) (toString_int_toList_ne_nil h0)
        (toString_int_toList_digits h0) daf hparse, if_pos hex]
    · have hbi : ("b" : String) = String.singleton 'b' := rfl
      have hparse2 : pyIntOfChars (toString daf).data = some daf := hparse
      rw [AddressTalmud.toNumber_en, hbi, toList_append_char,
        List.getLast?_concat, List.dropLast_concat]
      simp [hparse2, hex]
  · intro length s c hlast hfail
    rw [AddressTalmud.toNumber_en, hlast]
    by_cases hab : c = 'a' ∨ c = 'b'
    · rw [if_pos hab] at hfail
      simp only [if_pos hab, hfail]
    · rw [if_neg hab] at hfail
      simp only [if_neg hab, hfail]

/-- Witness for `C8_talmud_en_errors`: daf 3 of a 2-daf tractate fails,
"xa" fails to parse, "7b" parses to index 14. -/
theorem C8_talmud_en_errors_witness :
    AddressTalmud.toNumber_en (some 10) (toString (7 : Int) ++ "b") = .ok (7 * 2)
    ∧ AddressTalmud.toNumber_en (some 2) (toString (3 : Int)) = .error .inputError
    ∧ AddressTalmud.toNumber_en none "xa" = .error .inputError :=
  ⟨(C8_talmud_en_errors.1 (some 10) 7 (by omega) (by decide)).2.1,
   (C8_talmud_en_errors.2.1 2 3 (by omega) (by omega)).1,
   C8_talmud_en_errors.2.2 none "xa" 'a' (by decide) (by decide)⟩

/-! ### Python list indexing

`a[i]` on a Python list: a negative index has the length added first; the
result must then fall in `[0, len)` or an `IndexError` is raised. -/

def pyIndexList {α : Type} (l : List α) (i : Int) : Except PyErr α :=
  if h : 0 ≤ (if i < 0 then i + l.length else i)
      ∧ (if i < 0 then i + l.length else i) < (l.length : Int) then
    .ok (l.get ⟨(if i < 0 then i + l.length else i).toNat, by omega⟩)
  else .error .indexError

theorem pyIndexList_nonneg {α : Type} (l : List α) (i : Int)
    (h0 : 0 ≤ i) (h1 : i < (l.length : Int)) :
    pyIndexList l i = .ok (l.get ⟨i.toNat, by omega⟩) := by
  have hneg : ¬(i < 0) := by omega
  simp only [pyIndexList, if_neg hneg]
  rw [dif_pos ⟨h0, h1⟩]

theorem pyIndexList_neg_wrap {α : Type} (l : List α) (i : Int)
    (h0 : -(l.length : Int) ≤ i) (h1 : i < 0) :
    pyIndexList l i = .ok (l.get ⟨(i + l.length).toNat, by omega⟩) := by
  simp only [pyIndexList, if_pos h1]
  rw [dif_pos ⟨by omega, by omega⟩]

theorem pyIndexList_oob {α : Type} (l : List α) (i : Int)
    (h : (l.length : Int) ≤ i ∨ i < -(l.length : Int)) :
    pyIndexList l i = .error .indexError := by
  rw [pyIndexList]
  by_cases hneg : i < 0
  · simp only [if_pos hneg]
    rw [dif_neg]
    omega
  · simp only [if_neg hneg]
    rw [dif_neg]
    omega

/-! ### AddressAliyah.toStr (`schema.py` lines 1225-1233)

`toStr` indexes the per-language ordinal table with `i - 1`, with Python
list-index semantics: index `-1` (input 0) wraps to the last entry, indices
beyond the table raise `IndexError`. -/

def AddressAliyah.en_map : List String :=
  ["First", "Second", "Third", "Fourth", "Fifth", "Sixth", "Seventh"]

def AddressAliyah.he_map : List String :=
  ["ראשון", "שני", "שלישי", "רביעי", "חמישי", "שישי", "שביעי"]

def AddressAliyah.toStr (lang : Lang) (i : Int) : Except PyErr String :=
  match lang with
  | .en => pyIndexList AddressAliyah.en_map (i - 1)
  | .he => pyIndexList AddressAliyah.he_map (i - 1)

/-- C10: `AddressAliyah.toStr` is partial over the ordinal table: input 0
wraps via Python negative indexing to the seventh ordinal in either
language; every input above 7 raises an index error; inputs 1..7 produce
the table ordinals. -/
theorem C10_aliyah_to_str_domain :
    AddressAliyah.toStr .en 0 = .ok "Seventh"
    ∧ AddressAliyah.toStr .he 0 = .ok "שביעי"
    ∧ (∀ i : Int, ∀ _hi : 7 < i,
        AddressAliyah.toStr .en i = .error .indexError
        ∧ AddressAliyah.toStr .he i = .error .indexError)
    ∧ (∀ i : Int, ∀ h1 : 1 ≤ i, ∀ h7 : i ≤ 7,
        AddressAliyah.toStr .en i
            = .ok (AddressAliyah.en_map.get
                ⟨(i - 1).toNat, by simp [AddressAliyah.en_map]; omega⟩)
        ∧ AddressAliyah.toStr .he i
            = .ok (AddressAliyah.he_map.get
                ⟨(i - 1).toNat, by simp [AddressAliyah.he_map]; omega⟩))
    ∧ AddressAliyah.toStr .en 1 = .ok "First"
    ∧ AddressAliyah.toStr .en 7 = .ok "Seventh" := by
  refine ⟨rfl, rfl, ?_, ?_, rfl, rfl⟩
  · intro i hi
    have hlen_en : ((AddressAliyah.en_map.length : Nat) : Int) = 7 := by decide
    have hlen_he : ((AddressAliyah.he_map.length : Nat) : Int) = 7 := by decide
    constructor
    · exact pyIndexList_oob _ _ (Or.inl (by omega))
    · exact pyIndexList_oob _ _ (Or.inl (by omega))
  · intro i h1 h7
    have hlen_en : (AddressAliyah.en_map.length : Nat) = 7 := by decide
    have hlen_he : (AddressAliyah.he_map.length : Nat) = 7 := by decide
    constructor
    · exact pyIndexList_nonneg _ _ (by omega) (by rw [hlen_en]; omega)
    · exact pyIndexList_nonneg _ _ (by omega) (by rw [hlen_he]; omega)

/-- Witness for `C10_aliyah_to_str_domain` at inputs 99 and 3. -/
theorem C10_aliyah_to_str_domain_witness :
    (AddressAliyah.toStr .en 99 = .error .indexError
      ∧ AddressAliyah.toStr .he 99 = .error .indexError)
    ∧ (AddressAliyah.toStr .en 3
          = .ok (AddressAliyah.en_map.get ⟨((3 : Int) - 1).toNat, by decide⟩)
        ∧ AddressAliyah.toStr .he 3
          = .ok (AddressAliyah.he_map.get ⟨((3 : Int) - 1).toNat, by decide⟩)) :=
  ⟨C10_aliyah_to_str_domain.2.2.1 99 (by omega),
   C10_aliyah_to_str_domain.2.2.2.1 3 (by omega) (by omega)⟩

/-! ### ArrayMapNode.get_ref_from_sections (`schema.py` lines 744-747)

`refs` is a jagged nested list of citation strings; the method reduces
`a[i]` over the 0-based indices `s - 1`.  `reduce` with Python exceptions
propagating is `foldlM` over `Except`.  Indexing a leaf string is Python
string indexing (a one-character string results). -/

inductive JRefs where
  | ref (s : String)
  | arr (xs : List JRefs)

/-- Python `a[i]` on a node of the jagged structure. -/
def pyGetItem (a : JRefs) (i : Int) : Except PyErr JRefs :=
  match a with
  | .arr xs => pyIndexList xs i
  | .ref s => (pyIndexList s.toList i).map (fun c => .ref (String.singleton c))

/-- The `reduce(lambda a, i: a[i], [s - 1 for s in sections], self.refs)`
loop: left fold with Python exception propagation. -/
def reduceGetItem : JRefs → List Int → Except PyErr JRefs
  | a, [] => .ok a
  | a, s :: rest =>
    match pyGetItem a (s - 1) with
    | .ok b => reduceGetItem b rest
    | .error e => .error e

/-- `ArrayMapNode.get_ref_from_sections(sections)`. -/
def get_ref_from_sections (wholeRef : String) (refs : JRefs)
    (sections : List Int) : Except PyErr JRefs :=
  if sections.isEmpty then .ok (.ref wholeRef)
  else reduceGetItem refs sections

/-- The five-element `refs` list used in the spec's bounds example. -/
def refs5 : JRefs :=
  .arr [.ref "r1", .ref "r2", .ref "r3", .ref "r4", .ref "r5"]

/-- C9 counterexample: coordinate 0 is outside the declared 1-based shape,
yet `get_ref_from_sections([0])` does not fail — Python index `-1` wraps
around and silently returns the *last* element. -/
theorem C9_counterexample :
    get_ref_from_sections "W" refs5 [0] = .ok (.ref "r5") := rfl

/-- C9 (amended): an empty section vector returns `wholeRef` unchanged;
a coordinate `s` is translated to the 0-based index `s - 1`, so coordinates
`1..len` return the corresponding element and coordinates whose index
`s - 1` falls outside Python's accepted range `[-len, len-1]` (in
particular every `s > len`, e.g. 99 against a 5-element list) fail with an
IndexError-equivalent; coordinates in `(-len+1) .. 0` wrap around via
Python negative indexing instead of failing. -/
theorem C9_get_ref_from_sections (wholeRef : String) (xs : List JRefs) :
    get_ref_from_sections wholeRef (.arr xs) [] = .ok (.ref wholeRef)
    ∧ (∀ s : Int, ∀ hs1 : 1 ≤ s, ∀ hs2 : s ≤ (xs.length : Int),
        get_ref_from_sections wholeRef (.arr xs) [s]
          = .ok (xs.get ⟨(s - 1).toNat, by omega⟩))
    ∧ (∀ s : Int, (xs.length : Int) < s ∨ s ≤ -(xs.length : Int) →
        get_ref_from_sections wholeRef (.arr xs) [s] = .error .indexError)
    ∧ (∀ s : Int, ∀ hs1 : -(xs.length : Int) < s, ∀ hs2 : s ≤ 0,
        get_ref_from_sections wholeRef (.arr xs) [s]
          = .ok (xs.get ⟨(s - 1 + xs.length).toNat, by omega⟩)) := by
  have hone : ∀ s : Int, get_ref_from_sections wholeRef (.arr xs) [s]
      = pyIndexList xs (s - 1) := by
    intro s
    rw [get_ref_from_sections]
    rcases h : pyIndexList xs (s - 1) with v | e <;>
      simp [reduceGetItem, pyGetItem, h]
  refine ⟨rfl, ?_, ?_, ?_⟩
  · intro s h1 h2
    rw [hone, pyIndexList_nonneg xs (s - 1) (by omega) (by omega)]
  · intro s h
    rw [hone, pyIndexList_oob xs (s - 1) (by omega)]
  · intro s h1 h2
    rw [hone, pyIndexList_neg_wrap xs (s - 1) (by omega) (by omega)]

/-- Witness for `C9_get_ref_from_sections` on the five-element list:
`[]` returns the whole ref, `[2]` returns the second element, `[99]`
fails. -/
theorem C9_get_ref_from_sections_witness :
    get_ref_from_sections "W" refs5 [] = .ok (.ref "W")
    ∧ get_ref_from_sections "W" refs5 [2]
        = .ok ([JRefs.ref "r1", .ref "r2", .ref "r3", .ref "r4", .ref "r5"].get
            ⟨((2 : Int) - 1).toNat, by decide⟩)
    ∧ get_ref_from_sections "W" refs5 [99] = .error .indexError :=
  ⟨(C9_get_ref_from_sections "W" _).1,
   (C9_get_ref_from_sections "W" _).2.1 2 (by omega) (by decide),
   (C9_get_ref_from_sections "W" _).2.2.1 99 (by decide)⟩

/-! ### NumberedTitledTreeNode regex assembly (`schema.py` lines 657-710)

The per-level regex fragments of the `AddressType` family and the
`address_regex` / `full_regex` string assembly are embedded verbatim.
The Python source uses `ur\"...\"` literals, in which only `\uXXXX` escapes
are processed, so e.g. `\\d` and `\\s` stay as two-character sequences in
the pattern string; the multi-line Hebrew patterns keep their embedded
comments and whitespace exactly.  Languages other than "en"/"he" raise on
`section_patterns[lang]` and are not representable here (`Lang` has exactly
the two meaningful values). -/

def hebrewNumberRegexStr : String :=
  "                                    \x23 1 of 3 styles:\n        ((?=[\u05D0-\u05EA]+(?:\"|\u05F4|\x27\x27)[\u05D0-\u05EA])    \x23 (1: \") Lookahead:  At least one letter, followed by double-quote, two single quotes, or gershayim, followed by  one letter\n                \u05EA*(?:\"|\u05F4|\x27\x27)?\t\t\t\t    \x23 Many Tavs (400), maybe dbl quote\n                [\u05E7-\u05EA]?(?:\"|\u05F4|\x27\x27)?\t    \x23 One or zero kuf-tav (100-400), maybe dbl quote\n                [\u05D8-\u05E6]?(?:\"|\u05F4|\x27\x27)?\t    \x23 One or zero tet-tzaddi (9-90), maybe dbl quote\n                [\u05D0-\u05D8]?\t\t\t\t\t    \x23 One or zero alef-tet (1-9)\t\t\t\t\t\t\t\t\t\t\t\t\t\t\t\x23\n            |(?=[\u05D0-\u05EA])\t\t\t\t\t\t    \x23 (2: no punc) Lookahead: at least one Hebrew letter\n                \u05EA*\t\t\t\t\t\t\t\t    \x23 Many Tavs (400)\n                [\u05E7-\u05EA]?\t\t\t\t\t    \x23 One or zero kuf-tav (100-400)\n                [\u05D8-\u05E6]?\t\t\t\t\t    \x23 One or zero tet-tzaddi (9-90)\n                [\u05D0-\u05D8]?\t\t\t\t\t    \x23 One or zero alef-tet (1-9)\n            |[\u05D0-\u05EA][\x27\u05F3]\t\t\t\t\t    \x23 (3: \x27) single letter, followed by a single quote or geresh\n        )"

def talmudHePrefixStr : String :=
  "(\u05D3[\u05E3\u05E4\u05F3\x27]\\s+)"

def talmudHeCoreSuffixStr : String :=
  "([.:]|[,\\s]+(?:\u05E2(?:\"|\u05F4|\x27\x27))?[\u05D0\u05D1])?)"

def perekEnPatternStr : String :=
  "(?:(?:Chapter|chapter|Perek|perek)\\s*)"

def perekHePatternStr : String :=
  "(?:\n            \u05E4(?:\"|\u05F4|\x27\x27)?                  \x23 Peh (for \x27perek\x27) maybe followed by a quote of some sort\n            |\u05E4\u05E8\u05E7\\s*                  \x23 or \x27perek\x27 spelled out, followed by space\n        )"

def mishnahHePatternStr : String :=
  "(?:\n            (?:\u05DE\u05E9\u05E0\u05D4\\s)\t\t\t\x23 Mishna spelled out, with a space after\n            |(?:\u05DE(?:\"|\u05F4|\x27\x27)?)\t\t\t\t\x23 or Mem (for \x27mishna\x27) maybe followed by a quote of some sort\n        )"

/-- The five concrete `AddressType` subclasses. -/
inductive AddrKind where
  | integer
  | talmud
  | perek
  | mishnah
  | aliyah
deriving DecidableEq, Repr

/-- `section_patterns[lang]` per variant.  `AddressInteger` and
`AddressAliyah` inherit the base class's `{he: None, en: None}`. -/
def sectionPattern : AddrKind → Lang → Option String
  | .talmud, .he => some talmudHePrefixStr
  | .perek, .en => some perekEnPatternStr
  | .perek, .he => some perekHePatternStr
  | .mishnah, .he => some mishnahHePatternStr
  | _, _ => none

/-- `_core_regex(lang, group_id)`: the capture-group opener (named or
plain), then the per-variant numeral body.  `AddressPerek`, `AddressMishnah`
and `AddressAliyah` inherit `AddressInteger._core_regex`. -/
def coreRegexOf (k : AddrKind) (lang : Lang) (groupId : Option String) : String :=
  let opener := match groupId with
    | some g => "(?P<" ++ g ++ ">"
    | none => "("
  match k, lang with
  | .talmud, .en => opener ++ "\\d+[ab]?)"
  | .talmud, .he => opener ++ hebrewNumberRegexStr ++ talmudHeCoreSuffixStr
  | _, .en => opener ++ "\\d+)"
  | _, .he => opener ++ hebrewNumberRegexStr ++ ")"

/-- `AddressType.regex(lang, group_id, **kwargs)`: optional section-name
prefix (suffixed `?` unless strict), then the core regex. -/
def regexOf (k : AddrKind) (lang : Lang) (groupId : Option String)
    (strict : Bool) : String :=
  match sectionPattern k lang with
  | some pat => pat ++ (if strict then "" else "?") ++ coreRegexOf k lang groupId
  | none => coreRegexOf k lang groupId

/-- `stop_parsing(lang)`: only `AddressTalmud` overrides it, for Hebrew. -/
def stop_parsing (k : AddrKind) (lang : Lang) : Bool :=
  match k, lang with
  | .talmud, .he => true
  | _, _ => false

def after_title_delimiter_re : String := "[,.: \\r\\n]+"

/-- `NumberedTitledTreeNode.address_regex(lang, **kwargs)`: the level-0
fragment (group `a0` unless `for_js`), then — only when *level 0* does not
stop parsing — each deeper level wrapped as `(` separator + fragment `)`,
optional unless strict.  The address types are the level-0 kind plus the
list of deeper kinds. -/
def address_regex (t0 : AddrKind) (rest : List AddrKind) (lang : Lang)
    (strict forJs : Bool) : String :=
  let reg := regexOf t0 lang (if forJs then none else some "a0") strict
  if stop_parsing t0 lang then reg
  else
    (rest.enum).foldl (fun acc p =>
      acc ++ "(" ++ after_title_delimiter_re
        ++ regexOf p.2 lang (if forJs then none else some ("a" ++ toString (p.1 + 1))) strict
        ++ ")" ++ (if strict then "" else "?")) reg

/-- `regex.escape`: every character outside `[A-Za-z0-9_]` gets a
backslash. -/
def pyRegexEscape (title : String) : String :=
  String.join (title.toList.map (fun c =>
    if c.isAlphanum || c = '_' then String.singleton c
    else "\\" ++ String.singleton c))

/-- `NumberedTitledTreeNode.full_regex(title, lang, anchored, **kwargs)`:
anchor, escaped title, mandatory delimiter run, the address regex bare or
bracketed, and the trailing lookahead (`(?=\\W|$)` for the compiled form,
the explicit punctuation class for `for_js`). -/
def full_regex_str (title : String) (t0 : AddrKind) (rest : List AddrKind)
    (lang : Lang) (anchored strict forJs : Bool) : String :=
  (if anchored then "^" else "")
  ++ pyRegexEscape title ++ after_title_delimiter_re
  ++ "(?:(?:" ++ address_regex t0 rest lang strict forJs
  ++ ")|(?:[\\[(\x7b]" ++ address_regex t0 rest lang strict forJs
  ++ "[\\])\x7d]))"
  ++ (if forJs then "(?=[.,;?! \x7d)<]|$)" else "(?=\\W|$)")

/-- `needle` occurs as a substring of `hay`. -/
def containsSub (needle hay : String) : Prop :=
  ∃ x y : String, hay = x ++ needle ++ y

theorem string_append_assoc (a b c : String) : a ++ b ++ c = a ++ (b ++ c) := by
  rcases a with ⟨da⟩
  rcases b with ⟨db⟩
  rcases c with ⟨dc⟩
  exact congrArg String.mk (List.append_assoc da db dc)

/-! #### Claim C3 -/

/-- C3 counterexample: a depth-3 node typed `[Integer, Talmud, Integer]` in
Hebrew.  Level 1 (`AddressTalmud`) declares `stop_parsing("he")`, yet the
assembled pattern still contains the level-2 capture group `a2`: the
assembly loop consults only level 0's flag, so deeper fragments are
appended past a stop-parsing intermediate level. -/
theorem C3_counterexample :
    stop_parsing .talmud .he = true
    ∧ containsSub "(?P<a2>"
        (address_regex .integer [.talmud, .integer] .he false false) := by
  refine ⟨rfl, ?_⟩
  have hunfold : address_regex .integer [.talmud, .integer] .he false false
      = regexOf .integer .he (some "a0") false
        ++ "(" ++ after_title_delimiter_re ++ regexOf .talmud .he (some "a1") false
        ++ ")" ++ "?"
        ++ "(" ++ after_title_delimiter_re ++ regexOf .integer .he (some "a2") false
        ++ ")" ++ "?" := rfl
  have hR2 : regexOf .integer .he (some "a2") false
      = "(?P<" ++ "a2" ++ ">" ++ hebrewNumberRegexStr ++ ")" := rfl
  have hmerge : ("(?P<" ++ "a2" ++ ">" : String) = "(?P<a2>" := rfl
  refine ⟨regexOf .integer .he (some "a0") false
      ++ "(" ++ after_title_delimiter_re ++ regexOf .talmud .he (some "a1") false
      ++ ")" ++ "?" ++ "(" ++ after_title_delimiter_re,
    hebrewNumberRegexStr ++ ")" ++ ")" ++ "?", ?_⟩
  rw [hunfold, hR2, hmerge]
  simp only [string_append_assoc]

/-- C3 (amended): deeper levels are appended to `address_regex` unless
*level 0's* AddressType declares `stop_parsing` for the language — the
flags of intermediate levels are never consulted (see the counterexample).
For a Talmud-typed level 0 in Hebrew the assembled pattern is exactly the
level-0 fragment, independent of the deeper declared levels, so no deeper
level's fragment or capture group appears; for a non-stopping level 0
(e.g. Integer) the deeper separator-plus-fragment groups are appended. -/
theorem C3_stop_parsing_level0 (rest : List AddrKind) (strict forJs : Bool) :
    (address_regex .talmud rest .he strict forJs
      = regexOf .talmud .he (if forJs then none else some "a0") strict)
    ∧ containsSub "(?P<a1>" (address_regex .integer [.integer] .he false false) := by
  refine ⟨rfl, ?_⟩
  have hunfold : address_regex .integer [.integer] .he false false
      = regexOf .integer .he (some "a0") false
        ++ "(" ++ after_title_delimiter_re ++ regexOf .integer .he (some "a1") false
        ++ ")" ++ "?" := rfl
  have hR1 : regexOf .integer .he (some "a1") false
      = "(?P<" ++ "a1" ++ ">" ++ hebrewNumberRegexStr ++ ")" := rfl
  have hmerge : ("(?P<" ++ "a1" ++ ">" : String) = "(?P<a1>" := rfl
  refine ⟨regexOf .integer .he (some "a0") false
      ++ "(" ++ after_title_delimiter_re,
    hebrewNumberRegexStr ++ ")" ++ ")" ++ "?", ?_⟩
  rw [hunfold, hR1, hmerge]
  simp only [string_append_assoc]

/-! #### Claim C4: semantics of the compiled `full_regex` pattern

An AST for the regex dialect `full_regex` emits for a depth-2
Integer-addressed English node, a renderer that reproduces *exactly* the
assembled pattern string (proved below by `rfl`), and a backtracking
matcher — greedy quantifiers, ordered alternation, lookahead — matching
the behaviour of Python's regex engines on this fragment.  `pyMatch`
models `pattern.match(s)`: a match attempt anchored at position 0. -/

inductive RE where
  | eps
  | caret
  | dollar
  | lit (c : Char)
  | cls (cs : List Char)
  | digit
  | nonword
  | seq (a b : RE)
  | alt (a b : RE)
  | opt (a : RE)
  | plus (a : RE)
  | group (name : Option String) (a : RE)
  | ncgroup (a : RE)
  | lookahead (a : RE)

def clsCharRender (c : Char) : String :=
  if c = '\r' then "\\r"
  else if c = '\n' then "\\n"
  else if c = '[' then "\\["
  else if c = ']' then "\\]"
  else String.singleton c

def RE.render : RE → String
  | .eps => ""
  | .caret => "^"
  | .dollar => "$"
  | .lit c => pyRegexEscape (String.singleton c)
  | .cls cs => "[" ++ String.join (cs.map clsCharRender) ++ "]"
  | .digit => "\\d"
  | .nonword => "\\W"
  | .seq a b => a.render ++ b.render
  | .alt a b => a.render ++ "|" ++ b.render
  | .opt a => a.render ++ "?"
  | .plus a => a.render ++ "+"
  | .group none a => "(" ++ a.render ++ ")"
  | .group (some g) a => "(?P<" ++ g ++ ">" ++ a.render ++ ")"
  | .ncgroup a => "(?:" ++ a.render ++ ")"
  | .lookahead a => "(?=" ++ a.render ++ ")"

/-- Named-group captures, in completion order. -/
abbrev Caps := List (String × String)

/-- Fuel-indexed CPS backtracking matcher.  `k` is the continuation run on
the position and captures after `r` matches; quantifiers are greedy and
alternation is ordered, as in Python.  Captures inside a lookahead are
discarded (none occur in the modelled patterns). -/
def reMatch : Nat → RE → List Char → Nat → Caps →
    (Nat → Caps → Option (Nat × Caps)) → Option (Nat × Caps)
  | 0, _, _, _, _, _ => none
  | fuel + 1, r, s, i, caps, k =>
    match r with
    | .eps => k i caps
    | .caret => if i = 0 then k i caps else none
    | .dollar => if i = s.length then k i caps else none
    | .lit c =>
      match s.get? i with
      | some d => if d = c then k (i + 1) caps else none
      | none => none
    | .cls cs =>
      match s.get? i with
      | some d => if cs.contains d then k (i + 1) caps else none
      | none => none
    | .digit =>
      match s.get? i with
      | some d => if d.isDigit then k (i + 1) caps else none
      | none => none
    | .nonword =>
      match s.get? i with
      | some d => if !(d.isAlphanum || d = '_') then k (i + 1) caps else none
      | none => none
    | .seq a b => reMatch fuel a s i caps (fun j caps2 => reMatch fuel b s j caps2 k)
    | .alt a b =>
      match reMatch fuel a s i caps k with
      | some r2 => some r2
      | none => reMatch fuel b s i caps k
    | .opt a =>
      match reMatch fuel a s i caps k with
      | some r2 => some r2
      | none => k i caps
    | .plus a =>
      reMatch fuel a s i caps (fun j caps2 =>
        match reMatch fuel (.plus a) s j caps2 k with
        | some r2 => some r2
        | none => k j caps2)
    | .group name a =>
      reMatch fuel a s i caps (fun j caps2 =>
        k j (match name with
          | some g => caps2 ++ [(g, ((s.drop i).take (j - i)).asString)]
          | none => caps2))
    | .ncgroup a => reMatch fuel a s i caps k
    | .lookahead a =>
      match reMatch fuel a s i caps (fun j caps2 => some (j, caps2)) with
      | some _ => k i caps
      | none => none

/-- `pattern.match(s)`: attempt at position 0, returning the end of the
matched span and the named captures. -/
def pyMatch (r : RE) (s : String) : Option (Nat × Caps) :=
  reMatch 500 r s.toList 0 [] (fun j caps => some (j, caps))

/-- `[,.: \r\n]+` — `after_title_delimiter_re`. -/
def delimClsAst : RE := .plus (.cls [',', '.', ':', ' ', '\r', '\n'])

/-- One Integer-address level in English: `(?P<g>\d+)`. -/
def intGroupAst (g : Option String) : RE := .group g (.plus .digit)

/-- `address_regex` for a depth-2 `["Integer", "Integer"]` English node:
`(?P<a0>\d+)([,.: \r\n]+(?P<a1>\d+))?`. -/
def addrAstInt2 : RE :=
  .seq (intGroupAst (some "a0"))
    (.opt (.group none (.seq delimClsAst (intGroupAst (some "a1")))))

/-- The escaped title as a literal sequence. -/
def litSeq (s : String) : RE :=
  s.toList.foldr (fun c acc => .seq (.lit c) acc) .eps

/-- The `full_regex` pattern for that node: anchor, title, delimiter run,
bare-or-bracketed address portion, trailing `(?=\W|$)` lookahead. -/
def full_regex_ast (title : String) : RE :=
  .seq .caret (.seq (litSeq title) (.seq delimClsAst (.seq
    (.ncgroup (.alt (.ncgroup addrAstInt2)
      (.ncgroup (.seq (.cls ['[', '(', '\x7b'])
        (.seq addrAstInt2 (.cls [']', ')', '\x7d']))))))
    (.lookahead (.alt .nonword .dollar)))))

def genesisPatternAst : RE := full_regex_ast "Genesis"

/-- C4 counterexample: the compiled pattern *does* match "Genesis 1:1x".
The trailing lookahead `(?=\W|$)` fails after "Genesis 1:1", but the
engine backtracks out of the optional second level and accepts the prefix
"Genesis 1" (span 9), because the following ":" satisfies `\W`; only the
first coordinate is captured.  The claim says this input does not match. -/
theorem C4_counterexample :
    pyMatch genesisPatternAst "Genesis 1:1x" = some (9, [("a0", "1")]) := by
  decide

/-- C4 (amended): for the depth-2 Integer English node, the AST renders to
exactly the `full_regex("Genesis", "en")` pattern string, and under the
backtracking semantics: "Genesis 1:1" matches in full capturing (1,1);
"Genesis (1:1)" matches in full capturing (1,1); "Genesis1:1" does not
match (no delimiter after the title); "Genesis 1:1x" *does* match — as the
prefix "Genesis 1" capturing only the first coordinate, since the ":" after
it satisfies the `\W` lookahead. -/
theorem C4_full_regex_matching :
    (full_regex_ast "Genesis").render
        = full_regex_str "Genesis" .integer [.integer] .en true false false
    ∧ pyMatch genesisPatternAst "Genesis 1:1" = some (11, [("a0", "1"), ("a1", "1")])
    ∧ pyMatch genesisPatternAst "Genesis (1:1)" = some (13, [("a0", "1"), ("a1", "1")])
    ∧ pyMatch genesisPatternAst "Genesis1:1" = none
    ∧ pyMatch genesisPatternAst "Genesis 1:1x" = some (9, [("a0", "1")]) := by
  refine ⟨by decide, by decide, by decide, by decide, by decide⟩

end Sefaria
